import Mathlib

/-
Verification of the robo-uber dispatcher (dispatcher.py) against its
natural-language specification.

The dispatcher is embedded shallowly:
* Python dicts become association lists in insertion order (`List (κ × α)`):
  lookup returns the first matching key, updating an existing key keeps its
  position, inserting a fresh key appends at the end, deletion removes the
  key.  This matches CPython dict semantics (insertion-ordered since 3.7).
* `FareEntry` and `Dispatcher` mirror the Python classes field by field
  (`_parent` is modelled by a numeric world id `parentId`; world-identity
  comparison `parent == self._parent` becomes equality of these ids).
* External collaborators (the parent world and the taxi objects) are
  modelled by function parameters: `WorldM` carries the map queries
  (`travelTime`, node existence) and the utility computation performed via
  the taxis' private path planner (`taxi.py` is not part of the sources,
  so `_fareUtility1` is abstracted as a function of the roster index and
  the fare key; it is constant during one tick, which is faithful since
  neither prices of candidate fares nor taxi state change during the scan).
  Calls *to* the world (`broadcastFare`, `allocateFare`, `cancelFare`) are
  recorded as event lists in the result.
* Python floats are modelled as exact rationals (`Rat`); machine-level
  float rounding is irrelevant to the claims, which concern formulas,
  sentinels and control flow.
* `heapq` is a min-heap of tuples `(-utility, origin, destination, taxiIdx)`
  compared lexicographically; popping is modelled by `popMin`, which removes
  an element that is minimal for exactly that lexicographic key (ties in the
  full key are identical tuples, so this is observationally exact).
* The `IndexError` that `self._taxis[...]` can raise in `cancelFare` is
  modelled by an `Option` result: `none` means the exception escapes before
  any mutation (nothing was deleted yet at that point in the Python code).
-/

namespace RoboUber

/-- Grid coordinates, as the (x, y) integer pairs the world uses for node
positions and fare origins/destinations. -/
abbrev Coord := Int × Int

/-- The part of a taxi object the dispatcher observes: an identity (Python
object identity, needed for `in self._taxis` and `self._taxis.index`), the
`onDuty` flag and the length of its pending `_path` (a taxi is idle iff the
path is empty). -/
structure Taxi where
  tid : Nat
  onDuty : Bool
  pathLen : Nat
deriving DecidableEq

/-- FareEntry from dispatcher.py: origin, destination, call time, price
(0 = not yet priced), allocated taxi index (-1 = none), and the list of
roster indices of taxis that have bid. -/
structure FareEntry where
  origin : Coord
  destination : Coord
  calltime : Int
  price : Rat
  taxi : Int
  bidders : List Nat
deriving DecidableEq

/-- The nested fare board: origin, then destination, then call time, in
dict insertion order at each level. -/
abbrev Board := List (Coord × List (Coord × List (Int × FareEntry)))

/-- The dispatcher state: parent world id, revenue account, taxi roster,
count of taxis currently servicing fares, and the fare board. -/
structure Dispatcher where
  parentId : Nat
  revenue : Rat
  taxis : List Taxi
  taxisServicingFares : Int
  board : Board
deriving DecidableEq

/-- The external collaborators used inside clockTick: the parent world's
travel-time query (already composed with getNode on both endpoints, as
`_costFare` does), node existence (the `getNode ... is not None` test in
`_allocateFareWithUtility_Ret`), and the abstracted utility computation
`_fareUtility1(self._taxis[taxiIdx], origin, destination, time)`. -/
structure WorldM where
  travelTime : Coord → Coord → Int
  nodeExists : Coord → Bool
  utility : Nat → Coord → Coord → Int → Int

/-- Association-list lookup: first entry with the given key, like a dict
read. -/
def getA {κ α : Type} [DecidableEq κ] (k : κ) : List (κ × α) → Option α
  | [] => none
  | (k2, v) :: rest => if k2 = k then some v else getA k rest

/-- Association-list write, dict style: overwrite the first occurrence in
place, or append a fresh key at the end. -/
def setA {κ α : Type} [DecidableEq κ] (k : κ) (v : α) : List (κ × α) → List (κ × α)
  | [] => [(k, v)]
  | (k2, v2) :: rest => if k2 = k then (k, v) :: rest else (k2, v2) :: setA k v rest

/-- Association-list delete, dict style: remove the first occurrence of the
key. -/
def delA {κ α : Type} [DecidableEq κ] (k : κ) : List (κ × α) → List (κ × α)
  | [] => []
  | (k2, v2) :: rest => if k2 = k then rest else (k2, v2) :: delA k rest

/-- Lookup of a fare at an (origin, destination, calltime) triplet. -/
def lookupFare (b : Board) (o dd : Coord) (t : Int) : Option FareEntry :=
  (getA o b).bind fun ds => (getA dd ds).bind fun ts => getA t ts

/-- Python list indexing `l[i]` including negative indices: `l[i] = l[len+i]`
for `i < 0`; `none` models the IndexError. -/
def pyGet (l : List Taxi) (i : Int) : Option Taxi :=
  if 0 ≤ i then l.get? i.toNat
  else if (-i).toNat ≤ l.length then l.get? (l.length - (-i).toNat) else none

/-- Dispatcher._costFare: flat fare of 150 when the map reports a negative
travel time (gridlock), otherwise `(25 + travelTime) / 0.9`. -/
def costFare (t : Int) : Rat :=
  if t < 0 then 150 else (25 + (t : Rat)) / (9 / 10)

/-- Dispatcher.newFare: only accepted from the same world; creates (or
overwrites) the FareEntry at the (origin, destination, time) key with
price 0, taxi -1 and no bidders. -/
def newFare (d : Dispatcher) (caller : Nat) (o dd : Coord) (t : Int) : Dispatcher :=
  if caller = d.parentId then
    { d with board := (setA o
        (setA dd
          (setA t ⟨o, dd, t, 0, -1, []⟩ ((getA dd ((getA o d.board).getD [])).getD []))
          ((getA o d.board).getD []))
        d.board) }
  else d

/-- Dispatcher.recvPayment: only from the same world; adds to revenue and
decrements the servicing count. -/
def recvPayment (d : Dispatcher) (caller : Nat) (amount : Rat) : Dispatcher :=
  if caller = d.parentId then
    { d with revenue := d.revenue + amount,
             taxisServicingFares := d.taxisServicingFares - 1 }
  else d

/-- Python `self._taxis.index(taxi)`: the first roster position holding the
taxi (callers guard membership). -/
def idxOf (tx : Taxi) : List Taxi → Nat
  | [] => 0
  | t :: rest => if t = tx then 0 else idxOf tx rest + 1

/-- The inner scan of Dispatcher.fareBid over the call times of one
destination: append the bidder index to the first fare that still has
taxi = -1 and stop; `none` when every fare there is already allocated. -/
def bidTimes (idx : Nat) : List (Int × FareEntry) → Option (List (Int × FareEntry))
  | [] => none
  | (t, f) :: rest =>
    if f.taxi = -1 then
      some ((t, { f with bidders := f.bidders ++ [idx] }) :: rest)
    else
      (bidTimes idx rest).map (fun r => (t, f) :: r)

/-- The outer scan of Dispatcher.fareBid over the destinations under the
origin, in dict order, stopping at the first destination whose time scan
found an unallocated fare. -/
def bidDests (idx : Nat) : List (Coord × List (Int × FareEntry)) → Option (List (Coord × List (Int × FareEntry)))
  | [] => none
  | (dd, ts) :: rest =>
    match bidTimes idx ts with
    | some ts2 => some ((dd, ts2) :: rest)
    | none => (bidDests idx rest).map (fun r => (dd, ts) :: r)

/-- Dispatcher.fareBid: rogue taxis (not in the roster) are ignored;
otherwise the first unallocated fare under the origin receives the bidder's
roster index. Note the Python method takes no caller/world argument. -/
def fareBid (d : Dispatcher) (o : Coord) (tx : Taxi) : Dispatcher :=
  if tx ∈ d.taxis then
    match getA o d.board with
    | none => d
    | some ds =>
      match bidDests (idxOf tx d.taxis) ds with
      | none => d
      | some ds2 => { d with board := setA o ds2 d.board }
  else d

/-- The Python fareBid method has no caller-world parameter, so a call made
from any world executes identically. This wrapper makes the caller's world
explicit (and ignored, exactly as the code does) so that cross-world
properties can be stated about it. -/
def fareBidFrom (d : Dispatcher) (_callerWorld : Nat) (o : Coord) (tx : Taxi) : Dispatcher :=
  fareBid d o tx

/-- Dispatcher.cancelFare. When the triplet exists, the world is notified
with `self._taxis[entry.taxi]` (note: unconditionally, with Python negative
indexing when taxi = -1) and the entry is deleted; empty destination/origin
levels are pruned. `none` models the IndexError raised by the roster
indexing before anything is deleted. The second component lists the
(origin, taxi) cancellation events sent to the world. -/
def cancelFare (d : Dispatcher) (caller : Nat) (o dd : Coord) (ct : Int) :
    Option (Dispatcher × List (Coord × Taxi)) :=
  if caller = d.parentId then
    match getA o d.board with
    | none => some (d, [])
    | some ds =>
      match getA dd ds with
      | none => some (d, [])
      | some ts =>
        match getA ct ts with
        | none =>
          if ts.isEmpty then
            let ds2 := delA dd ds
            let b2 := if ds2.isEmpty then delA o d.board else setA o ds2 d.board
            some ({ d with board := b2 }, [])
          else some (d, [])
        | some f =>
          match pyGet d.taxis f.taxi with
          | none => none
          | some tx =>
            let ts2 := delA ct ts
            let ds2 := if ts2.isEmpty then delA dd ds else setA dd ts2 ds
            let b2 := if ds2.isEmpty then delA o d.board else setA o ds2 d.board
            some ({ d with board := b2 }, [(o, tx)])
  else some (d, [])

/-- The availability count at the start of clockTick:
`sum([taxi.onDuty and len(taxi._path) == 0 for taxi in self._taxis])`. -/
def availCount (taxis : List Taxi) : Nat :=
  (taxis.filter (fun t => t.onDuty && t.pathLen == 0)).length

/-- One step of insertion sort on call times (for
`sorted(list(self._fareBoard[origin][destination].keys()))`). -/
def insT (x : Int × FareEntry) : List (Int × FareEntry) → List (Int × FareEntry)
  | [] => [x]
  | y :: ys => if x.1 ≤ y.1 then x :: y :: ys else y :: insT x ys

/-- Sorting a destination's fares by ascending call time. -/
def sortT (l : List (Int × FareEntry)) : List (Int × FareEntry) :=
  l.foldr insT []

/-- A matching candidate as pushed on the heap:
`(utility, origin, destination, taxiIdx)` (utilities are negated only
inside the heap key). -/
structure Cand where
  utility : Int
  origin : Coord
  dest : Coord
  taxiIdx : Nat
deriving DecidableEq

/-- In-place pricing of one fare, as the price==0 branch of clockTick does
it: an unpriced fare gets `_costFare`, a priced fare is untouched. -/
def priceFare (w : WorldM) (f : FareEntry) : FareEntry :=
  if f.price = 0 then { f with price := costFare (w.travelTime f.origin f.destination) } else f

/-- The fare board after the clockTick scan: every unpriced entry priced,
keys and positions unchanged. -/
def mapFares (w : WorldM) (b : Board) : Board :=
  b.map (fun p => (p.1, p.2.map (fun q => (q.1, q.2.map (fun r => (r.1, priceFare w r.2))))))

/-- Dispatcher._allocateFareWithUtility_Ret: if the origin node exists,
one candidate per bidder whose index is inside the roster, in bid order. -/
def candsOfFare (w : WorldM) (nT : Nat) (o dd : Coord) (t : Int) (f : FareEntry) : List Cand :=
  if w.nodeExists o then
    (f.bidders.filter (fun i => decide (i < nT))).map
      (fun i => ⟨w.utility i o dd t, o, dd, i⟩)
  else []

/-- Per-entry action of the clockTick scan: an unpriced fare is broadcast
(price, no candidates); otherwise, when taxis are available, the fare is
unallocated and has bidders, its candidates are emitted and the fare
counter is incremented. Result: (broadcast events, candidates, fareCount
increment). -/
def scanEntry (w : WorldM) (nT tc : Nat) (o dd : Coord) (t : Int) (f : FareEntry) :
    List (Coord × Coord × Rat) × List Cand × Nat :=
  if f.price = 0 then
    ([(o, dd, costFare (w.travelTime f.origin f.destination))], [], 0)
  else if 0 < tc ∧ f.taxi < 0 ∧ f.bidders ≠ [] then
    ([], candsOfFare w nT o dd t f, 1)
  else ([], [], 0)

/-- Scan of one destination's fares in ascending call-time order. -/
def scanTs (w : WorldM) (nT tc : Nat) (o dd : Coord) :
    List (Int × FareEntry) → List (Coord × Coord × Rat) × List Cand × Nat
  | [] => ([], [], 0)
  | (t, f) :: rest =>
    let e := scanEntry w nT tc o dd t f
    let r := scanTs w nT tc o dd rest
    (e.1 ++ r.1, e.2.1 ++ r.2.1, e.2.2 + r.2.2)

/-- Scan of one origin's destinations in dict order. -/
def scanDs (w : WorldM) (nT tc : Nat) (o : Coord) :
    List (Coord × List (Int × FareEntry)) → List (Coord × Coord × Rat) × List Cand × Nat
  | [] => ([], [], 0)
  | (dd, ts) :: rest =>
    let e := scanTs w nT tc o dd (sortT ts)
    let r := scanDs w nT tc o rest
    (e.1 ++ r.1, e.2.1 ++ r.2.1, e.2.2 + r.2.2)

/-- Scan of the whole board in dict order of origins, collecting broadcast
events, heap candidates and the fare count of the tick. -/
def scanB (w : WorldM) (nT tc : Nat) : Board → List (Coord × Coord × Rat) × List Cand × Nat
  | [] => ([], [], 0)
  | (o, ds) :: rest =>
    let e := scanDs w nT tc o ds
    let r := scanB w nT tc rest
    (e.1 ++ r.1, e.2.1 ++ r.2.1, e.2.2 + r.2.2)

/-- Lexicographic step used by Python tuple comparison on integers. -/
def lexI (x y : Int) (k : Bool) : Bool :=
  decide (x < y) || (decide (x = y) && k)

/-- The heapq ordering on pushed tuples
`(-utility, origin, destination, taxiIdx)`: Python compares them
lexicographically, so the popped minimum has maximal utility. -/
def keyLe (a b : Cand) : Bool :=
  lexI (-a.utility) (-b.utility)
    (lexI a.origin.1 b.origin.1
      (lexI a.origin.2 b.origin.2
        (lexI a.dest.1 b.dest.1
          (lexI a.dest.2 b.dest.2 (decide (a.taxiIdx ≤ b.taxiIdx))))))

/-- heapq.heappop on the modelled heap: removes an element minimal in the
tuple order (elements with equal keys are equal tuples, so which one is
removed is unobservable). -/
def popMin : List Cand → Option (Cand × List Cand)
  | [] => none
  | c :: rest =>
    match popMin rest with
    | none => some (c, [])
    | some (m, rest2) => if keyLe c m then some (c, rest) else some (m, c :: rest2)

/-- The matching drain of clockTick: repeatedly pop the maximum-utility
candidate; commit it when neither its taxi index nor its (origin,
destination) pair has been used this tick; stop when the number of
committed allocations reaches taxiCount or fareCount, or the heap is
empty. Fuel is the heap size, which bounds the number of pops. Returns
(committed candidates in commit order, remaining heap). -/
def drainGo : Nat → List Cand → List Cand → Nat → Nat → List Cand × List Cand
  | 0, heap, committed, _, _ => (committed, heap)
  | fuel + 1, heap, committed, tc, fc =>
    match popMin heap with
    | none => (committed, heap)
    | some (c, rest) =>
      let committed2 :=
        if c.taxiIdx ∉ committed.map (fun x => x.taxiIdx) ∧
            (c.origin, c.dest) ∉ committed.map (fun x => (x.origin, x.dest)) then
          committed ++ [c]
        else committed
      if committed2.length = tc ∨ committed2.length = fc then (committed2, rest)
      else drainGo fuel rest committed2 tc fc

/-- The drain as clockTick runs it, starting from no allocations. -/
def drain (heap : List Cand) (tc fc : Nat) : List Cand × List Cand :=
  drainGo heap.length heap [] tc fc

/-- The observable outcome of one clockTick: the new dispatcher state, the
broadcastFare events, the committed allocations (in commit order), the
candidates left unpopped on the heap, and the tick's fare count. -/
structure TickRes where
  disp : Dispatcher
  broadcasts : List (Coord × Coord × Rat)
  committed : List Cand
  remaining : List Cand
  fareCount : Nat
deriving DecidableEq

/-- Dispatcher.clockTick: a cross-world call does nothing; otherwise the
scan prices/broadcasts unpriced fares and accumulates candidates; with no
available taxi the allocation phase is skipped entirely; otherwise the
drain commits conflict-free allocations and the servicing count grows by
the number of commits. -/
def clockTick (w : WorldM) (caller : Nat) (d : Dispatcher) : TickRes :=
  if caller = d.parentId then
    let tc := availCount d.taxis
    let s := scanB w d.taxis.length tc d.board
    let b2 := mapFares w d.board
    if tc = 0 then ⟨{ d with board := b2 }, s.1, [], [], s.2.2⟩
    else
      let dr := drain s.2.1 tc s.2.2
      ⟨{ d with board := b2,
                taxisServicingFares := d.taxisServicingFares + dr.1.length },
        s.1, dr.1, dr.2, s.2.2⟩
  else ⟨d, [], [], [], 0⟩

/-- The parent.allocateFare calls the drain makes: origin plus the roster
index of the taxi passed as `self._taxis[taxiIdx]`. -/
def allocCalls (r : TickRes) : List (Coord × Nat) :=
  r.committed.map (fun c => (c.origin, c.taxiIdx))

/-- Number of unpriced fares in one destination's list. -/
def czpTs (ts : List (Int × FareEntry)) : Nat :=
  ts.countP (fun p => decide (p.2.price = 0))

/-- Number of unpriced fares under one origin. -/
def czpDs (ds : List (Coord × List (Int × FareEntry))) : Nat :=
  (ds.map (fun q => czpTs q.2)).sum

/-- Number of unpriced fares on the whole board; the scan broadcasts
exactly these. -/
def czpB (b : Board) : Nat :=
  (b.map (fun p => czpDs p.2)).sum

/-- Well-formedness used for the cancellation no-op claim: no destination
level on the board is an empty dict (newFare never leaves one and
cancelFare prunes them). -/
def wfBoard (b : Board) : Prop :=
  ∀ p ∈ b, ∀ q ∈ p.2, q.2 ≠ []

/-- Keys are unique at every level of the board (dicts guarantee this). -/
def boardNodup (b : Board) : Prop :=
  (b.map Prod.fst).Nodup ∧
    ∀ p ∈ b, (p.2.map Prod.fst).Nodup ∧ ∀ q ∈ p.2, (q.2.map Prod.fst).Nodup

/-- Flattening of one destination level into ((destination, calltime), fare)
entries, in iteration order. -/
def flatTimes (dd : Coord) (ts : List (Int × FareEntry)) : List ((Coord × Int) × FareEntry) :=
  ts.map (fun p => ((dd, p.1), p.2))

/-- Flattening of an origin's destination map into the order fareBid scans
it: destinations in dict order, call times in dict order. -/
def flatDests (ds : List (Coord × List (Int × FareEntry))) : List ((Coord × Int) × FareEntry) :=
  ds.foldr (fun q acc => flatTimes q.1 q.2 ++ acc) []

/-- Reference combinator for the fareBid scan on the flattened list: append
the bidder index to the first entry whose taxi is the -1 sentinel, keep
everything else untouched; `none` when every entry is allocated. -/
def appFirstUnalloc (idx : Nat) : List ((Coord × Int) × FareEntry) → Option (List ((Coord × Int) × FareEntry))
  | [] => none
  | (k, f) :: rest =>
    if f.taxi = -1 then some ((k, { f with bidders := f.bidders ++ [idx] }) :: rest)
    else (appFirstUnalloc idx rest).map (fun r => (k, f) :: r)

/-- Concrete candidate heap used to witness the drain claims. -/
def heapC2 : List Cand := [⟨5, (0, 0), (1, 1), 0⟩, ⟨9, (2, 2), (3, 3), 1⟩]

/-- Concrete on-duty idle taxi for the allocation-bug scenario. -/
def taxiC3 : Taxi := ⟨0, true, 0⟩

/-- Concrete world for the allocation-bug scenario. -/
def worldC3 : WorldM := ⟨fun _ _ => 3, fun _ => true, fun _ _ _ _ => 7⟩

/-- Concrete priced, unallocated fare with one bidder. -/
def fareC3 : FareEntry := ⟨(0, 0), (1, 1), 5, 10, -1, [0]⟩

/-- Dispatcher holding fareC3, ready for allocation. -/
def dispC3 : Dispatcher := ⟨0, 0, [taxiC3], 0, [((0, 0), [((1, 1), [(5, fareC3)])])]⟩

/-- Concrete world for the pricing-idempotence witness. -/
def worldC4 : WorldM := ⟨fun _ _ => 4, fun _ => true, fun _ _ _ _ => 1⟩

/-- A fare that is already priced (price 50). -/
def fareC4 : FareEntry := ⟨(0, 0), (1, 1), 2, 50, -1, []⟩

/-- Dispatcher holding the already-priced fareC4. -/
def dispC4 : Dispatcher := ⟨0, 0, [], 0, [((0, 0), [((1, 1), [(2, fareC4)])])]⟩

/-- World whose map reports gridlock (negative travel time) everywhere. -/
def worldC5 : WorldM := ⟨fun _ _ => -2, fun _ => true, fun _ _ _ _ => 1⟩

/-- An unpriced fare (price-0 sentinel). -/
def fareC5 : FareEntry := ⟨(0, 0), (1, 1), 2, 0, -1, []⟩

/-- Dispatcher holding the unpriced fareC5. -/
def dispC5 : Dispatcher := ⟨0, 0, [], 0, [((0, 0), [((1, 1), [(2, fareC5)])])]⟩

/-- World for the taxi-starvation witness. -/
def worldC6 : WorldM := ⟨fun _ _ => 3, fun _ => true, fun _ _ _ _ => 1⟩

/-- An unpriced fare used in the starvation witness. -/
def fareC6 : FareEntry := ⟨(0, 0), (1, 1), 2, 0, -1, []⟩

/-- Dispatcher with one off-duty taxi (zero available) and one unpriced
fare. -/
def dispC6 : Dispatcher := ⟨0, 0, [⟨0, false, 0⟩], 2, [((0, 0), [((1, 1), [(2, fareC6)])])]⟩

/-- Concrete bidder taxi for the fareBid witness. -/
def taxiC7 : Taxi := ⟨3, true, 0⟩

/-- Concrete unallocated fare awaiting bids. -/
def fareC7 : FareEntry := ⟨(0, 0), (1, 1), 4, 20, -1, []⟩

/-- Destination map under the witness origin. -/
def dsC7 : List (Coord × List (Int × FareEntry)) := [((1, 1), [(4, fareC7)])]

/-- Dispatcher with taxiC7 on the roster and fareC7 on the board. -/
def dispC7 : Dispatcher := ⟨0, 0, [taxiC7], 0, [((0, 0), dsC7)]⟩

/-- Roster taxi for the cancellation scenarios. -/
def taxiC8 : Taxi := ⟨1, true, 0⟩

/-- Existing fare with the unallocated sentinel taxi = -1. -/
def fareC8 : FareEntry := ⟨(0, 0), (1, 1), 5, 10, -1, []⟩

/-- Dispatcher with a non-empty roster and the unallocated fareC8. -/
def dispC8 : Dispatcher := ⟨0, 0, [taxiC8], 0, [((0, 0), [((1, 1), [(5, fareC8)])])]⟩

/-- Existing fare with an assigned taxi (index 0). -/
def fareC8a : FareEntry := ⟨(0, 0), (1, 1), 5, 10, 0, []⟩

/-- Dispatcher with the allocated fareC8a. -/
def dispC8a : Dispatcher := ⟨0, 0, [taxiC8], 0, [((0, 0), [((1, 1), [(5, fareC8a)])])]⟩

/-- Dispatcher with an empty roster and an unallocated fare, for the
IndexError branch. -/
def dispC8e : Dispatcher := ⟨0, 0, [], 0, [((0, 0), [((1, 1), [(5, fareC8)])])]⟩

/-- Roster taxi used by the cross-world bid counterexample. -/
def taxiC9 : Taxi := ⟨2, true, 0⟩

/-- Dispatcher (world id 0) with an open fare, for the cross-world bid
counterexample. -/
def dispC9 : Dispatcher :=
  ⟨0, 0, [taxiC9], 0, [((0, 0), [((1, 1), [(3, ⟨(0, 0), (1, 1), 3, 8, -1, []⟩)])])]⟩

/-- Two-taxi roster: taxi 5 was added most recently. -/
def dispC10 : Dispatcher :=
  ⟨0, 0, [⟨4, true, 0⟩, ⟨5, true, 0⟩], 0, [((0, 0), [((1, 1), [(5, fareC8)])])]⟩

/-- Empty-roster dispatcher with an unallocated fare, for the failing
cancellation. -/
def dispC10e : Dispatcher := ⟨0, 0, [], 0, [((0, 0), [((1, 1), [(5, fareC8)])])]⟩

theorem getA_setA_eq {κ α : Type} [DecidableEq κ] (k : κ) (v : α) (l : List (κ × α)) :
    getA k (setA k v l) = some v := by
  induction l with
  | nil => simp [setA, getA]
  | cons p rest ih =>
    obtain ⟨k2, v2⟩ := p
    by_cases h : k2 = k
    · simp [setA, getA, h]
    · simp [setA, getA, h, ih]

theorem getA_setA_ne {κ α : Type} [DecidableEq κ] {k k2 : κ} (v : α) (l : List (κ × α))
    (hne : k2 ≠ k) : getA k2 (setA k v l) = getA k2 l := by
  have hne2 : k ≠ k2 := Ne.symm hne
  induction l with
  | nil => simp [setA, getA, hne2]
  | cons p rest ih =>
    obtain ⟨k3, v3⟩ := p
    by_cases h : k3 = k
    · subst h
      simp [setA, getA, hne, Ne.symm hne]
    · simp only [setA, if_neg h]
      by_cases h2 : k3 = k2
      · simp [getA, h2]
      · simp [getA, h2, ih]

theorem getA_delA_ne {κ α : Type} [DecidableEq κ] {k k2 : κ} (l : List (κ × α))
    (hne : k2 ≠ k) : getA k2 (delA k l) = getA k2 l := by
  induction l with
  | nil => simp [delA]
  | cons p rest ih =>
    obtain ⟨k3, v3⟩ := p
    by_cases h : k3 = k
    · subst h
      simp [delA, getA, Ne.symm hne]
    · simp only [delA, if_neg h]
      by_cases h2 : k3 = k2
      · simp [getA, h2]
      · simp [getA, h2, ih]

theorem getA_none_of_not_mem {κ α : Type} [DecidableEq κ] {k : κ} {l : List (κ × α)}
    (h : k ∉ l.map Prod.fst) : getA k l = none := by
  induction l with
  | nil => simp [getA]
  | cons p rest ih =>
    obtain ⟨k2, v2⟩ := p
    simp only [List.map_cons, List.mem_cons] at h
    push_neg at h
    have h2 : k2 ≠ k := Ne.symm h.1
    simp [getA, h2, ih h.2]

theorem getA_delA_eq {κ α : Type} [DecidableEq κ] {k : κ} {l : List (κ × α)}
    (h : (l.map Prod.fst).Nodup) : getA k (delA k l) = none := by
  induction l with
  | nil => simp [delA, getA]
  | cons p rest ih =>
    obtain ⟨k2, v2⟩ := p
    simp only [List.map_cons, List.nodup_cons] at h
    by_cases hk : k2 = k
    · subst hk
      simp only [delA, if_pos rfl]
      exact getA_none_of_not_mem h.1
    · simp [delA, getA, hk, ih h.2]

theorem getA_mem {κ α : Type} [DecidableEq κ] {k : κ} {v : α} {l : List (κ × α)}
    (h : getA k l = some v) : (k, v) ∈ l := by
  induction l with
  | nil => simp [getA] at h
  | cons p rest ih =>
    obtain ⟨k2, v2⟩ := p
    by_cases hk : k2 = k
    · subst hk
      simp [getA] at h
      subst h
      exact List.mem_cons_self _ _
    · simp only [getA, if_neg hk] at h
      exact List.mem_cons_of_mem _ (ih h)

theorem setA_ne_nil {κ α : Type} [DecidableEq κ] (k : κ) (v : α) (l : List (κ × α)) :
    setA k v l ≠ [] := by
  cases l with
  | nil => simp [setA]
  | cons p rest =>
    obtain ⟨k2, v2⟩ := p
    by_cases h : k2 = k <;> simp [setA, h]

theorem getA_map_snd {κ α β : Type} [DecidableEq κ] (g : α → β) (l : List (κ × α)) (k : κ) :
    getA k (l.map (fun p => (p.1, g p.2))) = (getA k l).map g := by
  induction l with
  | nil => simp [getA]
  | cons p rest ih =>
    obtain ⟨k2, v2⟩ := p
    by_cases h : k2 = k <;> simp [getA, h, ih]

theorem lookupFare_mapFares (w : WorldM) (b : Board) (o dd : Coord) (t : Int) :
    lookupFare (mapFares w b) o dd t = (lookupFare b o dd t).map (priceFare w) := by
  unfold lookupFare mapFares
  rw [getA_map_snd]
  cases hb : getA o b with
  | none => simp
  | some ds =>
    simp only [Option.map_some', Option.some_bind]
    rw [getA_map_snd]
    cases hd : getA dd ds with
    | none => simp
    | some ts =>
      simp only [Option.map_some', Option.some_bind]
      rw [getA_map_snd]

theorem keyLe_refl (a : Cand) : keyLe a a = true := by
  simp [keyLe, lexI]

theorem keyLe_total (a b : Cand) : keyLe a b = true ∨ keyLe b a = true := by
  simp only [keyLe, lexI, Bool.or_eq_true, Bool.and_eq_true, decide_eq_true_eq]
  omega

theorem keyLe_trans {a b c : Cand} (h1 : keyLe a b = true) (h2 : keyLe b c = true) :
    keyLe a c = true := by
  simp only [keyLe, lexI, Bool.or_eq_true, Bool.and_eq_true, decide_eq_true_eq] at h1 h2 ⊢
  omega

theorem keyLe_utility {a b : Cand} (h : keyLe a b = true) : b.utility ≤ a.utility := by
  simp only [keyLe, lexI, Bool.or_eq_true, Bool.and_eq_true, decide_eq_true_eq] at h
  omega

theorem popMin_none_iff (l : List Cand) : popMin l = none ↔ l = [] := by
  cases l with
  | nil => simp [popMin]
  | cons c rest =>
    simp only [popMin]
    cases h : popMin rest with
    | none => simp
    | some p =>
      obtain ⟨m, rest2⟩ := p
      by_cases hk : keyLe c m = true <;> simp [hk]

theorem popMin_mem {l : List Cand} {c : Cand} {r : List Cand}
    (h : popMin l = some (c, r)) : c ∈ l := by
  induction l generalizing c r with
  | nil => simp [popMin] at h
  | cons a rest ih =>
    simp only [popMin] at h
    cases hp : popMin rest with
    | none =>
      rw [hp] at h
      simp only [Option.some_inj, Prod.mk.injEq] at h
      simp [h.1]
    | some p =>
      obtain ⟨m, rest2⟩ := p
      rw [hp] at h
      by_cases hk : keyLe a m = true
      · simp only [if_pos hk, Option.some_inj, Prod.mk.injEq] at h
        simp [h.1]
      · simp only [if_neg hk, Option.some_inj, Prod.mk.injEq] at h
        exact List.mem_cons_of_mem _ (h.1 ▸ ih hp)

theorem popMin_length {l : List Cand} {c : Cand} {r : List Cand}
    (h : popMin l = some (c, r)) : r.length + 1 = l.length := by
  induction l generalizing c r with
  | nil => simp [popMin] at h
  | cons a rest ih =>
    simp only [popMin] at h
    cases hp : popMin rest with
    | none =>
      rw [hp] at h
      have hrest : rest = [] := (popMin_none_iff rest).mp hp
      simp only [Option.some_inj, Prod.mk.injEq] at h
      subst hrest
      simp [← h.2]
    | some p =>
      obtain ⟨m, rest2⟩ := p
      rw [hp] at h
      by_cases hk : keyLe a m = true
      · simp only [if_pos hk, Option.some_inj, Prod.mk.injEq] at h
        simp [← h.2]
      · simp only [if_neg hk, Option.some_inj, Prod.mk.injEq] at h
        have := ih hp
        rw [← h.2]
        simp only [List.length_cons]
        omega

theorem popMin_min {l : List Cand} {c : Cand} {r : List Cand}
    (h : popMin l = some (c, r)) : ∀ x ∈ l, keyLe c x = true := by
  induction l generalizing c r with
  | nil => simp [popMin] at h
  | cons a rest ih =>
    simp only [popMin] at h
    cases hp : popMin rest with
    | none =>
      rw [hp] at h
      have hrest : rest = [] := (popMin_none_iff rest).mp hp
      simp only [Option.some_inj, Prod.mk.injEq] at h
      subst hrest
      intro x hx
      simp only [List.mem_singleton] at hx
      subst hx
      rw [← h.1]
      exact keyLe_refl x
    | some p =>
      obtain ⟨m, rest2⟩ := p
      rw [hp] at h
      by_cases hk : keyLe a m = true
      · simp only [if_pos hk, Option.some_inj, Prod.mk.injEq] at h
        intro x hx
        rcases List.mem_cons.mp hx with hx | hx
        · subst hx
          rw [← h.1]
          exact keyLe_refl x
        · rw [← h.1]
          exact keyLe_trans hk (ih hp x hx)
      · simp only [if_neg hk, Option.some_inj, Prod.mk.injEq] at h
        intro x hx
        rcases List.mem_cons.mp hx with hx | hx
        · rw [← h.1]
          rcases keyLe_total x m with hh | hh
          · rw [hx] at hh
            exact absurd hh hk
          · exact hh
        · exact h.1 ▸ ih hp x hx

theorem drainGo_prefix (fuel : Nat) :
    ∀ (heap committed : List Cand) (tc fc : Nat),
      ∃ s, (drainGo fuel heap committed tc fc).1 = committed ++ s := by
  induction fuel with
  | zero => intro heap committed tc fc; exact ⟨[], by simp [drainGo]⟩
  | succ fuel ih =>
    intro heap committed tc fc
    simp only [drainGo]
    cases hp : popMin heap with
    | none => exact ⟨[], by simp⟩
    | some p =>
      obtain ⟨c, rest⟩ := p
      simp only
      by_cases hfresh : c.taxiIdx ∉ committed.map (fun x => x.taxiIdx) ∧
          (c.origin, c.dest) ∉ committed.map (fun x => (x.origin, x.dest))
      · rw [if_pos hfresh]
        by_cases hstop : (committed ++ [c]).length = tc ∨ (committed ++ [c]).length = fc
        · rw [if_pos hstop]
          exact ⟨[c], rfl⟩
        · rw [if_neg hstop]
          obtain ⟨s, hs⟩ := ih rest (committed ++ [c]) tc fc
          exact ⟨[c] ++ s, by rw [hs, List.append_assoc]⟩
      · rw [if_neg hfresh]
        by_cases hstop : committed.length = tc ∨ committed.length = fc
        · rw [if_pos hstop]
          exact ⟨[], by simp⟩
        · rw [if_neg hstop]
          exact ih rest committed tc fc

theorem drainGo_stop (fuel : Nat) :
    ∀ (heap committed : List Cand) (tc fc : Nat), heap.length ≤ fuel →
      (drainGo fuel heap committed tc fc).1.length = tc ∨
        (drainGo fuel heap committed tc fc).1.length = fc ∨
        (drainGo fuel heap committed tc fc).2 = [] := by
  induction fuel with
  | zero =>
    intro heap committed tc fc hlen
    have : heap = [] := List.length_eq_zero.mp (Nat.le_zero.mp hlen)
    subst this
    simp [drainGo]
  | succ fuel ih =>
    intro heap committed tc fc hlen
    simp only [drainGo]
    cases hp : popMin heap with
    | none =>
      right; right
      exact (popMin_none_iff heap).mp hp
    | some p =>
      obtain ⟨c, rest⟩ := p
      have hrl : rest.length + 1 = heap.length := popMin_length hp
      simp only
      by_cases hfresh : c.taxiIdx ∉ committed.map (fun x => x.taxiIdx) ∧
          (c.origin, c.dest) ∉ committed.map (fun x => (x.origin, x.dest))
      · rw [if_pos hfresh]
        by_cases hstop : (committed ++ [c]).length = tc ∨ (committed ++ [c]).length = fc
        · rw [if_pos hstop]
          rcases hstop with hstop | hstop
          · exact Or.inl hstop
          · exact Or.inr (Or.inl hstop)
        · rw [if_neg hstop]
          exact ih rest (committed ++ [c]) tc fc (by omega)
      · rw [if_neg hfresh]
        by_cases hstop : committed.length = tc ∨ committed.length = fc
        · rw [if_pos hstop]
          rcases hstop with hstop | hstop
          · exact Or.inl hstop
          · exact Or.inr (Or.inl hstop)
        · rw [if_neg hstop]
          exact ih rest committed tc fc (by omega)

theorem drainGo_nodup (fuel : Nat) :
    ∀ (heap committed : List Cand) (tc fc : Nat),
      (committed.map (fun x => x.taxiIdx)).Nodup →
      (committed.map (fun x => (x.origin, x.dest))).Nodup →
      ((drainGo fuel heap committed tc fc).1.map (fun x => x.taxiIdx)).Nodup ∧
        ((drainGo fuel heap committed tc fc).1.map (fun x => (x.origin, x.dest))).Nodup := by
  induction fuel with
  | zero =>
    intro heap committed tc fc h1 h2
    exact ⟨h1, h2⟩
  | succ fuel ih =>
    intro heap committed tc fc h1 h2
    simp only [drainGo]
    cases hp : popMin heap with
    | none => exact ⟨h1, h2⟩
    | some p =>
      obtain ⟨c, rest⟩ := p
      simp only
      by_cases hfresh : c.taxiIdx ∉ committed.map (fun x => x.taxiIdx) ∧
          (c.origin, c.dest) ∉ committed.map (fun x => (x.origin, x.dest))
      · rw [if_pos hfresh]
        have h1n : ((committed ++ [c]).map (fun x => x.taxiIdx)).Nodup := by
          simp only [List.map_append, List.map_cons, List.map_nil]
          rw [List.nodup_append]
          exact ⟨h1, List.nodup_singleton _, by simpa [List.Disjoint] using hfresh.1⟩
        have h2n : ((committed ++ [c]).map (fun x => (x.origin, x.dest))).Nodup := by
          simp only [List.map_append, List.map_cons, List.map_nil]
          rw [List.nodup_append]
          exact ⟨h2, List.nodup_singleton _, by simpa [List.Disjoint] using hfresh.2⟩
        by_cases hstop : (committed ++ [c]).length = tc ∨ (committed ++ [c]).length = fc
        · rw [if_pos hstop]
          exact ⟨h1n, h2n⟩
        · rw [if_neg hstop]
          exact ih rest (committed ++ [c]) tc fc h1n h2n
      · rw [if_neg hfresh]
        by_cases hstop : committed.length = tc ∨ committed.length = fc
        · rw [if_pos hstop]
          exact ⟨h1, h2⟩
        · rw [if_neg hstop]
          exact ih rest committed tc fc h1 h2

theorem scanEntry_bc_len (w : WorldM) (nT tc : Nat) (o dd : Coord) (t : Int) (f : FareEntry) :
    (scanEntry w nT tc o dd t f).1.length = if f.price = 0 then 1 else 0 := by
  unfold scanEntry
  split_ifs
  all_goals simp_all

theorem scanTs_bc_len (w : WorldM) (nT tc : Nat) (o dd : Coord) (ts : List (Int × FareEntry)) :
    (scanTs w nT tc o dd ts).1.length = czpTs ts := by
  induction ts with
  | nil => simp [scanTs, czpTs]
  | cons p rest ih =>
    obtain ⟨t, f⟩ := p
    simp only [scanTs, List.length_append, czpTs, List.countP_cons, ih, scanEntry_bc_len]
    unfold czpTs at ih
    by_cases h : f.price = 0
    · simp [h]
      omega
    · simp [h]

theorem insT_perm (x : Int × FareEntry) (l : List (Int × FareEntry)) :
    (insT x l).Perm (x :: l) := by
  induction l with
  | nil => simp [insT]
  | cons y ys ih =>
    simp only [insT]
    by_cases h : x.1 ≤ y.1
    · rw [if_pos h]
    · rw [if_neg h]
      exact (ih.cons y).trans (List.Perm.swap x y ys)

theorem sortT_perm (l : List (Int × FareEntry)) : (sortT l).Perm l := by
  induction l with
  | nil => simp [sortT]
  | cons a l ih =>
    have : sortT (a :: l) = insT a (sortT l) := rfl
    rw [this]
    exact (insT_perm a (sortT l)).trans (ih.cons a)

theorem czpTs_sortT (ts : List (Int × FareEntry)) : czpTs (sortT ts) = czpTs ts :=
  (sortT_perm ts).countP_eq _

theorem scanDs_bc_len (w : WorldM) (nT tc : Nat) (o : Coord)
    (ds : List (Coord × List (Int × FareEntry))) :
    (scanDs w nT tc o ds).1.length = czpDs ds := by
  induction ds with
  | nil => simp [scanDs, czpDs]
  | cons q rest ih =>
    obtain ⟨dd, ts⟩ := q
    simp only [scanDs, List.length_append, czpDs, List.map_cons, List.sum_cons,
      scanTs_bc_len, czpTs_sortT]
    unfold czpDs at ih
    omega

theorem scanB_bc_len (w : WorldM) (nT tc : Nat) (b : Board) :
    (scanB w nT tc b).1.length = czpB b := by
  induction b with
  | nil => simp [scanB, czpB]
  | cons p rest ih =>
    obtain ⟨o, ds⟩ := p
    simp only [scanB, List.length_append, czpB, List.map_cons, List.sum_cons, scanDs_bc_len]
    unfold czpB at ih
    omega

theorem clockTick_disp_board (w : WorldM) (d : Dispatcher) :
    (clockTick w d.parentId d).disp.board = mapFares w d.board := by
  by_cases h : availCount d.taxis = 0 <;> simp [clockTick, h]

theorem clockTick_broadcasts (w : WorldM) (d : Dispatcher) :
    (clockTick w d.parentId d).broadcasts =
      (scanB w d.taxis.length (availCount d.taxis) d.board).1 := by
  by_cases h : availCount d.taxis = 0 <;> simp [clockTick, h]

theorem clockTick_committed (w : WorldM) (d : Dispatcher) (h : availCount d.taxis ≠ 0) :
    (clockTick w d.parentId d).committed =
      (drain (scanB w d.taxis.length (availCount d.taxis) d.board).2.1
        (availCount d.taxis)
        (scanB w d.taxis.length (availCount d.taxis) d.board).2.2).1 := by
  simp [clockTick, h]

theorem costFare_neg {t : Int} (h : t < 0) : costFare t = 150 := by
  simp [costFare, h]

theorem costFare_nonneg {t : Int} (h : 0 ≤ t) :
    costFare t = (25 + (t : Rat)) / (9 / 10) := by
  simp [costFare, not_lt.mpr h]

theorem costFare_ne_zero (t : Int) : costFare t ≠ 0 := by
  unfold costFare
  split_ifs with h
  · norm_num
  · have ht : (0 : Rat) ≤ (t : Rat) := by
      exact_mod_cast not_lt.mp h
    have hnum : (0 : Rat) < 25 + (t : Rat) := by linarith
    have hden : (0 : Rat) < 9 / 10 := by norm_num
    exact ne_of_gt (div_pos hnum hden)

theorem bidTimes_flat (idx : Nat) (dd : Coord) (ts : List (Int × FareEntry)) :
    (bidTimes idx ts).map (flatTimes dd) = appFirstUnalloc idx (flatTimes dd ts) := by
  induction ts with
  | nil => simp [bidTimes, flatTimes, appFirstUnalloc]
  | cons p rest ih =>
    obtain ⟨t, f⟩ := p
    by_cases h : f.taxi = -1
    · simp [bidTimes, flatTimes, appFirstUnalloc, h]
    · rw [show bidTimes idx ((t, f) :: rest) = (bidTimes idx rest).map (fun r => (t, f) :: r) from
        by simp [bidTimes, h]]
      rw [show flatTimes dd ((t, f) :: rest) = ((dd, t), f) :: flatTimes dd rest from rfl]
      rw [show appFirstUnalloc idx (((dd, t), f) :: flatTimes dd rest) =
          (appFirstUnalloc idx (flatTimes dd rest)).map (fun r => ((dd, t), f) :: r) from
        by simp [appFirstUnalloc, h]]
      rw [← ih]
      cases hb : bidTimes idx rest with
      | none => simp
      | some ts2 => simp [flatTimes]

theorem appFirst_append_some (idx : Nat) {l1 l3 : List ((Coord × Int) × FareEntry)}
    (l2 : List ((Coord × Int) × FareEntry)) (h : appFirstUnalloc idx l1 = some l3) :
    appFirstUnalloc idx (l1 ++ l2) = some (l3 ++ l2) := by
  induction l1 generalizing l3 with
  | nil => simp [appFirstUnalloc] at h
  | cons e rest ih =>
    obtain ⟨k, f⟩ := e
    by_cases hf : f.taxi = -1
    · simp only [appFirstUnalloc, if_pos hf, Option.some_inj] at h
      subst h
      simp [List.cons_append, appFirstUnalloc, if_pos hf]
    · simp only [appFirstUnalloc, if_neg hf, Option.map_eq_some'] at h
      obtain ⟨r, hr, hl3⟩ := h
      subst hl3
      simp only [List.cons_append, appFirstUnalloc, if_neg hf, List.append_eq]
      rw [ih hr]
      rfl

theorem appFirst_append_none (idx : Nat) {l1 : List ((Coord × Int) × FareEntry)}
    (l2 : List ((Coord × Int) × FareEntry)) (h : appFirstUnalloc idx l1 = none) :
    appFirstUnalloc idx (l1 ++ l2) =
      (appFirstUnalloc idx l2).map (fun r => l1 ++ r) := by
  induction l1 with
  | nil => simp [appFirstUnalloc]
  | cons e rest ih =>
    obtain ⟨k, f⟩ := e
    by_cases hf : f.taxi = -1
    · simp [appFirstUnalloc, if_pos hf] at h
    · simp only [appFirstUnalloc, if_neg hf, Option.map_eq_none'] at h
      simp only [List.cons_append, appFirstUnalloc, if_neg hf, List.append_eq]
      rw [ih h]
      cases appFirstUnalloc idx l2 <;> simp

theorem appFirst_none_iff (idx : Nat) (l : List ((Coord × Int) × FareEntry)) :
    appFirstUnalloc idx l = none ↔ ∀ e ∈ l, e.2.taxi ≠ -1 := by
  induction l with
  | nil => simp [appFirstUnalloc]
  | cons e rest ih =>
    obtain ⟨k, f⟩ := e
    by_cases hf : f.taxi = -1
    · simp [appFirstUnalloc, if_pos hf]
      exact fun h => absurd hf h
    · simp [appFirstUnalloc, if_neg hf, Option.map_eq_none', ih, hf]

theorem appFirst_of_split (idx : Nat) (pre post : List ((Coord × Int) × FareEntry))
    (k : Coord × Int) (f : FareEntry) (hpre : ∀ e ∈ pre, e.2.taxi ≠ -1) (hf : f.taxi = -1) :
    appFirstUnalloc idx (pre ++ (k, f) :: post) =
      some (pre ++ (k, { f with bidders := f.bidders ++ [idx] }) :: post) := by
  induction pre with
  | nil => simp [appFirstUnalloc, hf]
  | cons e pre ih =>
    obtain ⟨k2, f2⟩ := e
    have hne : f2.taxi ≠ -1 := hpre (k2, f2) (List.mem_cons_self _ _)
    have step : appFirstUnalloc idx (((k2, f2) :: pre) ++ (k, f) :: post) =
        (appFirstUnalloc idx (pre ++ (k, f) :: post)).map (fun r => (k2, f2) :: r) := by
      simp [appFirstUnalloc, hne]
    rw [step, ih (fun e he => hpre e (List.mem_cons_of_mem _ he))]
    rfl

theorem bidDests_flat (idx : Nat) (ds : List (Coord × List (Int × FareEntry))) :
    (bidDests idx ds).map flatDests = appFirstUnalloc idx (flatDests ds) := by
  induction ds with
  | nil => simp [bidDests, flatDests, appFirstUnalloc]
  | cons q rest ih =>
    obtain ⟨dd, ts⟩ := q
    have hfd : flatDests ((dd, ts) :: rest) = flatTimes dd ts ++ flatDests rest := rfl
    rw [hfd]
    cases hb : bidTimes idx ts with
    | some ts2 =>
      have h1 : appFirstUnalloc idx (flatTimes dd ts) = some (flatTimes dd ts2) := by
        rw [← bidTimes_flat, hb]
        rfl
      rw [appFirst_append_some idx (flatDests rest) h1]
      rw [show bidDests idx ((dd, ts) :: rest) = some ((dd, ts2) :: rest) from by
        simp [bidDests, hb]]
      rfl
    | none =>
      have h1 : appFirstUnalloc idx (flatTimes dd ts) = none := by
        rw [← bidTimes_flat, hb]
        rfl
      rw [appFirst_append_none idx (flatDests rest) h1]
      rw [show bidDests idx ((dd, ts) :: rest) =
          (bidDests idx rest).map (fun r => (dd, ts) :: r) from by simp [bidDests, hb]]
      rw [← ih]
      cases bidDests idx rest with
      | none => rfl
      | some r => rfl

theorem get_last_eq (l : List Taxi) (h : l ≠ []) : l.get? (l.length - 1) = l.getLast? := by
  induction l with
  | nil => simp at h
  | cons a rest ih =>
    cases rest with
    | nil => rfl
    | cons b t =>
      have ih2 := ih (by simp)
      simp only [List.length_cons, Nat.add_sub_cancel] at ih2 ⊢
      rw [List.getLast?_cons_cons, ← ih2]
      rfl

theorem pyGet_neg_one {l : List Taxi} (h : l ≠ []) : pyGet l (-1) = l.getLast? := by
  have hl : 1 ≤ l.length := List.length_pos.mpr h
  have h1 : ((-(-1 : Int)).toNat) = 1 := by decide
  unfold pyGet
  rw [if_neg (by decide), h1, if_pos hl]
  exact get_last_eq l h

/-- C1: for every tick, across the allocations committed by the matching
drain in clockTick, no taxi index appears in more than one committed
allocation and no (origin, destination) pair is allocated more than once,
even when multiple candidates in the heap reference the same taxi or the
same pair. -/
theorem C1_no_duplicate_commitments (w : WorldM) (caller : Nat) (d : Dispatcher) :
    ((clockTick w caller d).committed.map (fun c => c.taxiIdx)).Nodup ∧
      ((clockTick w caller d).committed.map (fun c => (c.origin, c.dest))).Nodup := by
  by_cases hc : caller = d.parentId
  · subst hc
    by_cases h0 : availCount d.taxis = 0
    · simp [clockTick, h0]
    · rw [clockTick_committed w d h0]
      unfold drain
      exact drainGo_nodup _ _ _ _ _ (by simp) (by simp)
  · simp [clockTick, hc]

/-- C2: for every non-empty candidate heap, the first allocation committed
by the matching drain is a candidate of globally maximum utility, and the
drain stops exactly when the number of committed allocations reaches the
available-taxi count or the tick's fare count, or the heap is empty. -/
theorem C2_greedy_drain (heap : List Cand) (tc fc : Nat) (h : heap ≠ []) :
    (∃ c, (drain heap tc fc).1.head? = some c ∧ c ∈ heap ∧
        ∀ x ∈ heap, x.utility ≤ c.utility) ∧
      ((drain heap tc fc).1.length = tc ∨ (drain heap tc fc).1.length = fc ∨
        (drain heap tc fc).2 = []) := by
  constructor
  · obtain ⟨p, hp⟩ : ∃ p, popMin heap = some p := by
      cases hpm : popMin heap with
      | none => exact absurd ((popMin_none_iff heap).mp hpm) h
      | some p => exact ⟨p, rfl⟩
    obtain ⟨c, rest⟩ := p
    refine ⟨c, ?_, popMin_mem hp, fun x hx => keyLe_utility (popMin_min hp x hx)⟩
    have hlen : rest.length + 1 = heap.length := popMin_length hp
    unfold drain
    rw [← hlen]
    simp only [drainGo, hp, List.map_nil, List.not_mem_nil, not_false_eq_true, and_self,
      if_true, List.nil_append]
    by_cases hstop : ([c] : List Cand).length = tc ∨ ([c] : List Cand).length = fc
    · rw [if_pos hstop]
      simp
    · rw [if_neg hstop]
      obtain ⟨s, hs⟩ := drainGo_prefix rest.length rest [c] tc fc
      rw [hs]
      simp
  · exact drainGo_stop heap.length heap [] tc fc le_rfl

/-- Witness for C2 on a concrete two-candidate heap with one available
taxi. -/
theorem C2_witness :
    (∃ c, (drain heapC2 1 2).1.head? = some c ∧ c ∈ heapC2 ∧
        ∀ x ∈ heapC2, x.utility ≤ c.utility) ∧
      ((drain heapC2 1 2).1.length = 1 ∨ (drain heapC2 1 2).1.length = 2 ∨
        (drain heapC2 1 2).2 = []) :=
  C2_greedy_drain heapC2 1 2 (by decide)

/-- C4: once a fare's price is nonzero, a tick leaves its entry unchanged
and broadcasts only for price-0 fares (their count), and the pricing
function never returns the 0 sentinel, so the price moves 0 → nonzero
exactly once. -/
theorem C4_price_set_once (w : WorldM) (d : Dispatcher) (o dd : Coord) (t : Int)
    (f : FareEntry) (h1 : lookupFare d.board o dd t = some f) (h2 : f.price ≠ 0) :
    lookupFare (clockTick w d.parentId d).disp.board o dd t = some f ∧
      (clockTick w d.parentId d).broadcasts.length = czpB d.board ∧
      ∀ tt : Int, costFare tt ≠ 0 := by
  refine ⟨?_, ?_, costFare_ne_zero⟩
  · rw [clockTick_disp_board, lookupFare_mapFares, h1]
    simp [priceFare, h2]
  · rw [clockTick_broadcasts, scanB_bc_len]

/-- Witness for C4: a tick over a board holding one already-priced fare
leaves the entry untouched and broadcasts nothing. -/
theorem C4_witness :
    lookupFare (clockTick worldC4 dispC4.parentId dispC4).disp.board (0, 0) (1, 1) 2 =
        some fareC4 ∧
      (clockTick worldC4 dispC4.parentId dispC4).broadcasts.length = czpB dispC4.board :=
  ⟨(C4_price_set_once worldC4 dispC4 (0, 0) (1, 1) 2 fareC4 (by decide) (by decide)).1,
    (C4_price_set_once worldC4 dispC4 (0, 0) (1, 1) 2 fareC4 (by decide) (by decide)).2.1⟩

/-- C5: an unpriced fare is priced by the tick with exactly 150 when the
map reports a negative travel time, and with (25 + travelTime) / 0.9
otherwise. -/
theorem C5_pricing_formula (w : WorldM) (d : Dispatcher) (o dd : Coord) (t : Int)
    (f : FareEntry) (h1 : lookupFare d.board o dd t = some f) (h2 : f.price = 0) :
    lookupFare (clockTick w d.parentId d).disp.board o dd t =
        some { f with price := costFare (w.travelTime f.origin f.destination) } ∧
      (w.travelTime f.origin f.destination < 0 →
        costFare (w.travelTime f.origin f.destination) = 150) ∧
      (0 ≤ w.travelTime f.origin f.destination →
        costFare (w.travelTime f.origin f.destination) =
          (25 + (w.travelTime f.origin f.destination : Rat)) / (9 / 10)) := by
  refine ⟨?_, fun h => costFare_neg h, fun h => costFare_nonneg h⟩
  rw [clockTick_disp_board, lookupFare_mapFares, h1]
  simp [priceFare, h2]

/-- Witness for C5: with a gridlocked map (travel time -2) the fare is
priced at exactly 150. -/
theorem C5_witness :
    lookupFare (clockTick worldC5 dispC5.parentId dispC5).disp.board (0, 0) (1, 1) 2 =
        some { fareC5 with price := costFare (worldC5.travelTime fareC5.origin fareC5.destination) } ∧
      costFare (worldC5.travelTime fareC5.origin fareC5.destination) = 150 :=
  ⟨(C5_pricing_formula worldC5 dispC5 (0, 0) (1, 1) 2 fareC5 (by decide) (by decide)).1,
    (C5_pricing_formula worldC5 dispC5 (0, 0) (1, 1) 2 fareC5 (by decide) (by decide)).2.1
      (by decide)⟩

/-- C6: on a tick with zero available taxis, clockTick still prices and
broadcasts every unpriced fare but performs no allocation: no commit, no
allocateFare call, servicing count unchanged, board fully priced. -/
theorem C6_no_taxi_no_allocation (w : WorldM) (d : Dispatcher)
    (h : availCount d.taxis = 0) :
    (clockTick w d.parentId d).committed = [] ∧
      allocCalls (clockTick w d.parentId d) = [] ∧
      (clockTick w d.parentId d).disp.taxisServicingFares = d.taxisServicingFares ∧
      (clockTick w d.parentId d).broadcasts.length = czpB d.board ∧
      (clockTick w d.parentId d).disp.board = mapFares w d.board := by
  refine ⟨?_, ?_, ?_, ?_, clockTick_disp_board w d⟩
  · simp [clockTick, h]
  · simp [allocCalls, clockTick, h]
  · simp [clockTick, h]
  · rw [clockTick_broadcasts, scanB_bc_len]

/-- Witness for C6: one off-duty taxi, one unpriced fare: no commitment,
servicing count stays 2, and the single broadcast happens. -/
theorem C6_witness :
    (clockTick worldC6 dispC6.parentId dispC6).committed = [] ∧
      (clockTick worldC6 dispC6.parentId dispC6).disp.taxisServicingFares =
        dispC6.taxisServicingFares ∧
      (clockTick worldC6 dispC6.parentId dispC6).broadcasts.length = czpB dispC6.board :=
  ⟨(C6_no_taxi_no_allocation worldC6 dispC6 (by decide)).1,
    (C6_no_taxi_no_allocation worldC6 dispC6 (by decide)).2.2.1,
    (C6_no_taxi_no_allocation worldC6 dispC6 (by decide)).2.2.2.1⟩

/-- C3 (claim refuted by the code, recording the divergence): the claim
says a committed assignment writes the winning taxi index into the fare
entry, replacing the -1 sentinel exactly once. The active drain never
writes the entry's taxi field (the assignment only exists in the dead
if-False branch and in the unused helpers), so after a tick that commits
an allocation the fare still carries taxi = -1 and the very next tick
commits the same fare again. -/
theorem C3_assigned_taxi_never_marked :
    (clockTick worldC3 0 dispC3).committed.length = 1 ∧
      lookupFare (clockTick worldC3 0 dispC3).disp.board (0, 0) (1, 1) 5 = some fareC3 ∧
      fareC3.taxi = -1 ∧
      (clockTick worldC3 0 (clockTick worldC3 0 dispC3).disp).committed.length = 1 ∧
      (clockTick worldC3 0 (clockTick worldC3 0 dispC3).disp).disp.taxisServicingFares = 2 := by
  decide

/-- C9 (amended): the operations that do receive the caller's world
(newFare, recvPayment, cancelFare, clockTick) silently leave the
dispatcher unchanged on a world mismatch; fareBid receives no world and is
covered by the counterexample. -/
theorem C9_world_checks_amended (d : Dispatcher) (caller : Nat) (w : WorldM)
    (o dd : Coord) (t ct : Int) (amt : Rat) (h : caller ≠ d.parentId) :
    newFare d caller o dd t = d ∧
      recvPayment d caller amt = d ∧
      cancelFare d caller o dd ct = some (d, []) ∧
      clockTick w caller d = ⟨d, [], [], [], 0⟩ := by
  refine ⟨?_, ?_, ?_, ?_⟩
  · simp [newFare, h]
  · simp [recvPayment, h]
  · simp [cancelFare, h]
  · simp [clockTick, h]

/-- Witness for the amended C9 at caller world 5 against a dispatcher of
world 0. -/
theorem C9_witness :
    newFare dispC9 5 (2, 2) (3, 3) 7 = dispC9 ∧
      clockTick worldC4 5 dispC9 = ⟨dispC9, [], [], [], 0⟩ :=
  ⟨(C9_world_checks_amended dispC9 5 worldC4 (2, 2) (3, 3) 7 0 0 (by decide)).1,
    (C9_world_checks_amended dispC9 5 worldC4 (2, 2) (3, 3) 7 0 0 (by decide)).2.2.2⟩

/-- C9 counterexample: fareBid takes no caller-world parameter at all, so
a bid issued from world 5 (≠ the dispatcher's world 0) by a roster taxi
still mutates the fare board — the claim that every exposed mutating
operation checks the caller's world and no-ops on a mismatch is false for
submitBid/fareBid. -/
theorem C9_counterexample :
    (5 : Nat) ≠ dispC9.parentId ∧ fareBidFrom dispC9 5 (0, 0) taxiC9 ≠ dispC9 := by
  decide

/-- C7: a bid by a roster taxi lands on exactly the first fare under the
origin whose taxi is still the -1 sentinel (appending the bidder's roster
index), every other entry and every other origin is unchanged, and a bid
by an unknown taxi changes nothing. The fourth conjunct names the first
unallocated fare by splitting the origin's flattened scan order at it. -/
theorem C7_bid_first_unallocated (d : Dispatcher) (o : Coord) (tx : Taxi) :
    (tx ∉ d.taxis → fareBid d o tx = d) ∧
      (∀ o2, o2 ≠ o → getA o2 (fareBid d o tx).board = getA o2 d.board) ∧
      (∀ ds, tx ∈ d.taxis → getA o d.board = some ds →
        (∀ e ∈ flatDests ds, e.2.taxi ≠ -1) → fareBid d o tx = d) ∧
      (∀ ds pre k f post, tx ∈ d.taxis → getA o d.board = some ds →
        flatDests ds = pre ++ (k, f) :: post → f.taxi = -1 →
        (∀ e ∈ pre, e.2.taxi ≠ -1) →
        ∃ ds2, getA o (fareBid d o tx).board = some ds2 ∧
          flatDests ds2 =
            pre ++ (k, { f with bidders := f.bidders ++ [idxOf tx d.taxis] }) :: post) := by
  refine ⟨fun h => by simp [fareBid, h], ?_, ?_, ?_⟩
  · intro o2 hne
    unfold fareBid
    by_cases ht : tx ∈ d.taxis
    · rw [if_pos ht]
      cases hbo : getA o d.board with
      | none => rfl
      | some ds =>
        dsimp only
        cases hbd : bidDests (idxOf tx d.taxis) ds with
        | none => rfl
        | some ds2 =>
          dsimp only
          exact getA_setA_ne _ _ hne
    · rw [if_neg ht]
  · intro ds ht hbo hall
    have hnone : appFirstUnalloc (idxOf tx d.taxis) (flatDests ds) = none :=
      (appFirst_none_iff _ _).mpr hall
    have hbd : bidDests (idxOf tx d.taxis) ds = none := by
      have hbf := bidDests_flat (idxOf tx d.taxis) ds
      rw [hnone] at hbf
      exact Option.map_eq_none'.mp hbf
    unfold fareBid
    rw [if_pos ht, hbo]
    dsimp only
    rw [hbd]
  · intro ds pre k f post ht hbo hsplit hf hpre
    have happ := appFirst_of_split (idxOf tx d.taxis) pre post k f hpre hf
    rw [← hsplit] at happ
    have hbf := bidDests_flat (idxOf tx d.taxis) ds
    rw [happ] at hbf
    obtain ⟨ds2, hbd, hfl⟩ := Option.map_eq_some'.mp hbf
    refine ⟨ds2, ?_, hfl⟩
    unfold fareBid
    rw [if_pos ht, hbo]
    dsimp only
    rw [hbd]
    dsimp only
    exact getA_setA_eq _ _ _

/-- Witness for C7: the single unallocated fare under the origin receives
the bidder's roster index 0. -/
theorem C7_witness :
    ∃ ds2, getA (0, 0) (fareBid dispC7 (0, 0) taxiC7).board = some ds2 ∧
      flatDests ds2 =
        [(((1, 1), (4 : Int)),
          { fareC7 with bidders := fareC7.bidders ++ [idxOf taxiC7 dispC7.taxis] })] :=
  (C7_bid_first_unallocated dispC7 (0, 0) taxiC7).2.2.2 dsC7 [] ((1, 1), 4) fareC7 []
    (by decide) (by decide) (by decide) (by decide) (by simp)

/-- C8 counterexample: cancelling an existing fare whose taxi field is
still the -1 sentinel nevertheless issues a world cancellation
notification (naming the roster's last taxi via Python negative
indexing), so "a notification is issued if and only if the entry has an
assigned taxi" is false at this input. -/
theorem C8_counterexample :
    (lookupFare dispC8.board (0, 0) (1, 1) 5).map (fun f => f.taxi) = some (-1) ∧
      (cancelFare dispC8 dispC8.parentId (0, 0) (1, 1) 5).map (fun r => r.2) =
        some [((0, 0), taxiC8)] := by
  decide

/-- C8 (amended): cancelling a nonexistent triplet is a no-op with no
error and no notification; when the entry exists, the world is notified
unconditionally with the roster element at the entry's taxi field (the
assigned taxi when it is set, the last roster taxi for the -1 sentinel)
and the entry is removed, provided that roster indexing succeeds; when
the roster indexing fails the operation raises before the entry is
removed. -/
theorem C8_cancel_amended (d : Dispatcher) (o dd : Coord) (ct : Int) :
    (lookupFare d.board o dd ct = none → wfBoard d.board →
      cancelFare d d.parentId o dd ct = some (d, [])) ∧
      (∀ f tx, lookupFare d.board o dd ct = some f → pyGet d.taxis f.taxi = some tx →
        boardNodup d.board →
        ∃ d2, cancelFare d d.parentId o dd ct = some (d2, [(o, tx)]) ∧
          lookupFare d2.board o dd ct = none) ∧
      (∀ f, lookupFare d.board o dd ct = some f → pyGet d.taxis f.taxi = none →
        cancelFare d d.parentId o dd ct = none) := by
  refine ⟨?_, ?_, ?_⟩
  · intro hnone hwf
    unfold cancelFare
    rw [if_pos rfl]
    cases hbo : getA o d.board with
    | none => rfl
    | some ds =>
      dsimp only
      cases hdd : getA dd ds with
      | none => rfl
      | some ts =>
        dsimp only
        cases hct : getA ct ts with
        | some f =>
          exfalso
          unfold lookupFare at hnone
          rw [hbo] at hnone
          simp only [Option.some_bind] at hnone
          rw [hdd] at hnone
          simp only [Option.some_bind] at hnone
          rw [hct] at hnone
          exact Option.noConfusion hnone
        | none =>
          dsimp only
          have hts : ts ≠ [] := hwf (o, ds) (getA_mem hbo) (dd, ts) (getA_mem hdd)
          have hempty : ts.isEmpty = false := by
            cases ts with
            | nil => exact absurd rfl hts
            | cons a b => rfl
          rw [hempty]
          rfl
  · intro f tx hsome hpg hnd
    unfold lookupFare at hsome
    cases hbo : getA o d.board with
    | none =>
      rw [hbo] at hsome
      exact Option.noConfusion hsome
    | some ds =>
      rw [hbo] at hsome
      simp only [Option.some_bind] at hsome
      cases hdd : getA dd ds with
      | none =>
        rw [hdd] at hsome
        exact Option.noConfusion hsome
      | some ts =>
        rw [hdd] at hsome
        simp only [Option.some_bind] at hsome
        have hndo : (d.board.map Prod.fst).Nodup := hnd.1
        have hpds := hnd.2 (o, ds) (getA_mem hbo)
        have hnds : (ds.map Prod.fst).Nodup := hpds.1
        have hnts : (ts.map Prod.fst).Nodup := hpds.2 (dd, ts) (getA_mem hdd)
        unfold cancelFare
        rw [if_pos rfl, hbo]
        dsimp only
        rw [hdd]
        dsimp only
        rw [hsome]
        dsimp only
        rw [hpg]
        dsimp only
        refine ⟨_, rfl, ?_⟩
        by_cases h1 : (delA ct ts).isEmpty = true
        · rw [h1]
          by_cases h2 : (delA dd ds).isEmpty = true
          · rw [if_pos rfl, h2, if_pos rfl]
            unfold lookupFare
            rw [getA_delA_eq hndo]
            rfl
          · have h2f : (delA dd ds).isEmpty = false := Bool.not_eq_true _ ▸ eq_false_of_ne_true h2
            rw [if_pos rfl, h2f, if_neg (by simp)]
            unfold lookupFare
            rw [getA_setA_eq]
            simp only [Option.some_bind]
            rw [getA_delA_eq hnds]
            rfl
        · have h1f : (delA ct ts).isEmpty = false := eq_false_of_ne_true h1
          have hds2 : (setA dd (delA ct ts) ds).isEmpty = false := by
            cases hh : setA dd (delA ct ts) ds with
            | nil => exact absurd hh (setA_ne_nil _ _ _)
            | cons a b => rfl
          rw [h1f]
          have hif : (if (false = true) then delA dd ds else setA dd (delA ct ts) ds) =
              setA dd (delA ct ts) ds := by simp
          rw [hif, hds2]
          have hif2 : ∀ x y : Board, (if (false = true) then x else y) = y := by
            intro x y
            simp
          rw [hif2]
          unfold lookupFare
          rw [getA_setA_eq]
          simp only [Option.some_bind]
          rw [getA_setA_eq]
          simp only [Option.some_bind]
          rw [getA_delA_eq hnts]
  · intro f hsome hpg
    unfold lookupFare at hsome
    cases hbo : getA o d.board with
    | none =>
      rw [hbo] at hsome
      exact Option.noConfusion hsome
    | some ds =>
      rw [hbo] at hsome
      simp only [Option.some_bind] at hsome
      cases hdd : getA dd ds with
      | none =>
        rw [hdd] at hsome
        exact Option.noConfusion hsome
      | some ts =>
        rw [hdd] at hsome
        simp only [Option.some_bind] at hsome
        unfold cancelFare
        rw [if_pos rfl, hbo]
        dsimp only
        rw [hdd]
        dsimp only
        rw [hsome]
        dsimp only
        rw [hpg]

/-- Witness for the amended C8: a nonexistent origin is a silent no-op;
cancelling the allocated fareC8a notifies with its assigned taxi and
removes the entry; an empty roster makes the indexing fail. -/
theorem C8_witness :
    cancelFare dispC8a dispC8a.parentId (9, 9) (1, 1) 5 = some (dispC8a, []) ∧
      (∃ d2, cancelFare dispC8a dispC8a.parentId (0, 0) (1, 1) 5 =
          some (d2, [((0, 0), taxiC8)]) ∧
        lookupFare d2.board (0, 0) (1, 1) 5 = none) ∧
      cancelFare dispC8e dispC8e.parentId (0, 0) (1, 1) 5 = none :=
  ⟨(C8_cancel_amended dispC8a (9, 9) (1, 1) 5).1 (by decide) (by unfold wfBoard; decide),
    (C8_cancel_amended dispC8a (0, 0) (1, 1) 5).2.1 fareC8a taxiC8 (by decide) (by decide)
      (by unfold boardNodup; decide),
    (C8_cancel_amended dispC8e (0, 0) (1, 1) 5).2.2 fareC8 (by decide) (by decide)⟩

/-- C10: cancelFare on an existing entry still carrying the -1 sentinel
indexes the roster at position -1: with a non-empty roster the world
notification names the most recently added (last) taxi, and with an empty
roster the operation fails before the fare is removed. -/
theorem C10_cancel_sentinel (d : Dispatcher) (o dd : Coord) (ct : Int) (f : FareEntry)
    (h1 : lookupFare d.board o dd ct = some f) (h2 : f.taxi = -1) :
    (d.taxis = [] → cancelFare d d.parentId o dd ct = none) ∧
      (d.taxis ≠ [] → ∃ d2 tx, cancelFare d d.parentId o dd ct = some (d2, [(o, tx)]) ∧
        d.taxis.getLast? = some tx) := by
  unfold lookupFare at h1
  cases hbo : getA o d.board with
  | none =>
    rw [hbo] at h1
    exact Option.noConfusion h1
  | some ds =>
    rw [hbo] at h1
    simp only [Option.some_bind] at h1
    cases hdd : getA dd ds with
    | none =>
      rw [hdd] at h1
      exact Option.noConfusion h1
    | some ts =>
      rw [hdd] at h1
      simp only [Option.some_bind] at h1
      constructor
      · intro hnil
        have hpg : pyGet d.taxis f.taxi = none := by
          rw [h2, hnil]
          decide
        unfold cancelFare
        rw [if_pos rfl, hbo]
        dsimp only
        rw [hdd]
        dsimp only
        rw [h1]
        dsimp only
        rw [hpg]
      · intro hne
        obtain ⟨tx, htx⟩ : ∃ tx, d.taxis.getLast? = some tx :=
          Option.isSome_iff_exists.mp (List.getLast?_isSome.mpr hne)
        have hpg : pyGet d.taxis f.taxi = some tx := by
          rw [h2, pyGet_neg_one hne, htx]
        have hcf : ∃ d2, cancelFare d d.parentId o dd ct = some (d2, [(o, tx)]) := by
          unfold cancelFare
          rw [if_pos rfl, hbo]
          dsimp only
          rw [hdd]
          dsimp only
          rw [h1]
          dsimp only
          rw [hpg]
          dsimp only
          exact ⟨_, rfl⟩
        obtain ⟨d2, hcf⟩ := hcf
        exact ⟨d2, tx, hcf, htx⟩

/-- Witness for C10: with taxis 4 and 5 on the roster (5 added last) the
notification names taxi 5; with an empty roster the cancellation fails. -/
theorem C10_witness :
    (∃ d2 tx, cancelFare dispC10 dispC10.parentId (0, 0) (1, 1) 5 =
        some (d2, [((0, 0), tx)]) ∧ dispC10.taxis.getLast? = some tx) ∧
      cancelFare dispC10e dispC10e.parentId (0, 0) (1, 1) 5 = none :=
  ⟨(C10_cancel_sentinel dispC10 (0, 0) (1, 1) 5 fareC8 (by decide) (by decide)).2 (by decide),
    (C10_cancel_sentinel dispC10e (0, 0) (1, 1) 5 fareC8 (by decide) (by decide)).1 (by decide)⟩

end RoboUber
